import Mathlib

/-!
Verification of the Wasm module-builder core:
  - src/runtime/vm/datastream.h        (WriteStreamBase / ReadStream, LEB128)
  - src/runtime/vm/compiler/assembler/assembler_wasm.cc

Streams are modelled as lists of byte values (Nat, each < 256 on the write
side).  Fatal errors (FATAL / UNIMPLEMENTED in the source) are modelled by
Option: none means the process aborts before any byte of the failing
emission reaches the stream.
-/

namespace Wasm

/-! ## LEB128 encodings (datastream.h) -/

/-- ULEB128 encoding as written by WriteStreamBase::WriteInternal for an
unsigned T (src/runtime/vm/datastream.h, lines 443-468): each iteration
emits the low 7 bits of the remainder; the continuation bit 0x80 is set
unless the remainder shifted right by 7 is zero. -/
def ulebEncode (v : Nat) : List Nat :=
  if h : v / 128 = 0 then [v % 128]
  else (v % 128 + 128) :: ulebEncode (v / 128)
termination_by v
decreasing_by
  exact Nat.div_lt_self (Nat.pos_of_ne_zero (fun hv => h (by simp [hv]))) (by norm_num)

/-- SLEB128 encoding as written by WriteStreamBase::WriteInternal for a
signed T (src/runtime/vm/datastream.h, lines 443-468).  The C++ loop takes
part = remainder & 0x7F (the low 7 two's-complement bits, i.e. the
Euclidean remainder mod 128) and shifts arithmetically by 7 (Euclidean
division by 128, as Int./ is).  The loop stops when the remainder is 0 with
the part's bit 6 clear, or the remainder is -1 with the part's bit 6 set. -/
def slebEncode (v : Int) : List Nat :=
  if h : (v / 128 = 0 ∧ v % 128 < 64) ∨ (v / 128 = -1 ∧ 64 ≤ v % 128) then
    [(v % 128).toNat]
  else ((v % 128).toNat + 128) :: slebEncode (v / 128)
termination_by v.natAbs
decreasing_by
  simp only [not_or, not_and] at h
  omega

/-- The accumulation loop of ReadStream::ReadInternal
(src/runtime/vm/datastream.h, lines 137-162) for T = int64_t: reads bytes,
ORs the low 7 bits of each into r at the current shift (r is a uint64_t, so
the shifted contribution is truncated mod 2^64), and stops on the first
byte whose continuation bit 0x80 is clear.  Returns the accumulated r, the
total shift s, and the final byte; none if the byte list runs out first. -/
def slebDecodeLoop : List Nat → Nat → Nat → Option (Nat × Nat × Nat)
  | [], _, _ => none
  | b :: rest, r, s =>
    if b &&& 128 = 0 then some (r ||| ((b &&& 127) <<< s) % 2 ^ 64, s + 7, b)
    else slebDecodeLoop rest (r ||| ((b &&& 127) <<< s) % 2 ^ 64) (s + 7)

/-- Bitwise NOT on a uint64_t value: ~x = 2^64 - 1 - x for x < 2^64. -/
def complement64 (x : Nat) : Nat := 2 ^ 64 - 1 - x

/-- static_cast<int64_t> of a uint64_t value (two's complement). -/
def toSigned64 (x : Nat) : Int :=
  if x < 2 ^ 63 then (x : Int) else (x : Int) - 2 ^ 64

/-- The sign-extension tail of ReadStream::ReadInternal for T = int64_t
(src/runtime/vm/datastream.h, lines 151-161): if the final byte's bit 6
(kSignMask) is set and fewer than 64 data bits were read, OR in the mask
~((1 << s) - 1), then cast the uint64_t accumulator to int64_t. -/
def slebFinish : Option (Nat × Nat × Nat) → Option Int
  | none => none
  | some (r, s, b) =>
    let signBits := if b &&& 64 ≠ 0 ∧ s < 64 then complement64 ((1 <<< s) - 1) else 0
    some (toSigned64 (r ||| signBits))

/-- Full SLEB128 decode for T = int64_t: ReadInternal's loop followed by its
sign extension. -/
def slebDecode64 (bs : List Nat) : Option Int :=
  slebFinish (slebDecodeLoop bs 0 0)

/-! ## The scoped length-prefix primitive (assembler_wasm.cc, lines 55-87) -/

/-- The effect of a PushBytecountFrontScope on the enclosing stream
(assembler_wasm.cc, lines 69-78): the destructor writes the sub-writer's
byte count to the enclosing stream as a ULEB128, then appends the
sub-writer's bytes verbatim, and restores the enclosing stream pointer.
Modelled as appending the length-prefixed payload to the enclosing
stream's byte list. -/
def pushBytecountFront (parent payload : List Nat) : List Nat :=
  parent ++ ulebEncode payload.length ++ payload

/-! ## Bitwise helper lemmas -/

lemma and_two_pow_div_mod (b i : Nat) :
    b &&& 2 ^ i = (b / 2 ^ i % 2) * 2 ^ i := by
  rw [Nat.and_two_pow, Nat.testBit_to_div_mod]
  rcases Nat.mod_two_eq_zero_or_one (b / 2 ^ i) with h | h <;> simp [h]

lemma and_128_eq_zero {b : Nat} (h : b < 128) : b &&& 128 = 0 := by
  have := and_two_pow_div_mod b 7
  norm_num at this
  omega

lemma and_128_ne_zero {b : Nat} (h1 : 128 ≤ b) (h2 : b < 256) : ¬ b &&& 128 = 0 := by
  have := and_two_pow_div_mod b 7
  norm_num at this
  omega

lemma and_127_eq (b : Nat) : b &&& 127 = b % 128 := by
  have := Nat.and_pow_two_sub_one_eq_mod b 7
  norm_num at this
  exact this

lemma and_64_eq_zero {b : Nat} (h : b < 64) : b &&& 64 = 0 := by
  have := and_two_pow_div_mod b 6
  norm_num at this
  omega

lemma and_64_ne_zero {b : Nat} (h1 : 64 ≤ b) (h2 : b < 128) : ¬ b &&& 64 = 0 := by
  have := and_two_pow_div_mod b 6
  norm_num at this
  omega

/-- ORing a value below 2^s with a multiple of 2^s is addition. -/
lemma lor_disjoint {a : Nat} (m s : Nat) (h : a < 2 ^ s) :
    a ||| m * 2 ^ s = a + m * 2 ^ s := by
  rw [Nat.lor_comm, Nat.mul_comm m (2 ^ s), ← Nat.mul_add_lt_is_or h, Nat.add_comm]

/-! ## C3: the length-prefix law -/

/-- C3: on leaving a scoped length-prefix sub-emission whose body wrote a
payload of n bytes, the enclosing stream grows by exactly
(ulebEncode n).length + n bytes; the first parent.length bytes are the old
enclosing stream unchanged, followed by the ULEB128 of n, and the last n
bytes are the payload verbatim. -/
theorem c3_length_law_holds (parent payload : List Nat) :
    (pushBytecountFront parent payload).length
        = parent.length + ((ulebEncode payload.length).length + payload.length)
    ∧ (pushBytecountFront parent payload).take parent.length = parent
    ∧ ((pushBytecountFront parent payload).drop parent.length).take
        (ulebEncode payload.length).length = ulebEncode payload.length
    ∧ (pushBytecountFront parent payload).drop
        ((pushBytecountFront parent payload).length - payload.length) = payload := by
  unfold pushBytecountFront
  refine ⟨by simp, ?_, ?_, ?_⟩
  · rw [List.append_assoc, List.take_left]
  · rw [List.append_assoc, List.drop_left, List.take_left]
  · rw [List.append_assoc]
    have h1 : (parent ++ (ulebEncode payload.length ++ payload)).length -
        payload.length = parent.length + (ulebEncode payload.length).length := by
      simp [Nat.add_assoc]
      omega
    rw [h1, ← List.length_append, ← List.append_assoc, List.drop_left]

/-! ## Structure of the SLEB128 encoder -/

/-- The stop condition of the signed WriteInternal loop holds exactly for
values that fit in one 7-bit group with correct sign. -/
lemma sleb_stop_iff (v : Int) :
    ((v / 128 = 0 ∧ v % 128 < 64) ∨ (v / 128 = -1 ∧ 64 ≤ v % 128)) ↔
      (-64 ≤ v ∧ v < 64) := by
  omega

lemma slebEncode_small {v : Int} (h : -64 ≤ v ∧ v < 64) :
    slebEncode v = [(v % 128).toNat] := by
  rw [slebEncode, dif_pos ((sleb_stop_iff v).mpr h)]

lemma slebEncode_step {v : Int} (h : ¬ (-64 ≤ v ∧ v < 64)) :
    slebEncode v = ((v % 128).toNat + 128) :: slebEncode (v / 128) := by
  rw [slebEncode, dif_neg (fun hc => h ((sleb_stop_iff v).mp hc))]

/-- The encoder emits one or more groups: every group but the last has the
continuation bit 0x80 set, the final group is a data byte below 0x80, and
the final data byte's bit 6 (the SLEB128 sign bit) is set exactly for
negative inputs. -/
lemma slebEncode_shape (v : Int) :
    ∃ gs last, slebEncode v = gs ++ [last] ∧ last < 128 ∧
      (64 ≤ last ↔ v < 0) ∧ ∀ b ∈ gs, 128 ≤ b ∧ b < 256 := by
  by_cases h : -64 ≤ v ∧ v < 64
  · refine ⟨[], (v % 128).toNat, by rw [slebEncode_small h]; rfl, by omega, by omega,
      by simp⟩
  · obtain ⟨gs, last, hrec, hlt, hsign, hgs⟩ := slebEncode_shape (v / 128)
    refine ⟨((v % 128).toNat + 128) :: gs, last, ?_, hlt, ?_, ?_⟩
    · rw [slebEncode_step h, hrec]
      rfl
    · rw [hsign]
      omega
    · intro b hb
      rcases List.mem_cons.mp hb with hb | hb
      · omega
      · exact hgs b hb
termination_by v.natAbs
decreasing_by
  omega

/-- v fits in k 7-bit SLEB128 groups: sign extension from bit 7k-1
recovers v. -/
def fits7 (k : Nat) (v : Int) : Prop :=
  -(2 ^ (7 * k - 1)) ≤ v ∧ v < 2 ^ (7 * k - 1)

instance (k : Nat) (v : Int) : Decidable (fits7 k v) := by
  unfold fits7
  infer_instance

/-- The encoder's output length makes its input fit. -/
lemma slebEncode_length_fits (v : Int) : fits7 (slebEncode v).length v := by
  by_cases h : -64 ≤ v ∧ v < 64
  · rw [slebEncode_small h]
    simp only [fits7, List.length_singleton]
    norm_num
    omega
  · rw [slebEncode_step h]
    have ih := slebEncode_length_fits (v / 128)
    obtain ⟨gs, last, hrec, -, -, -⟩ := slebEncode_shape (v / 128)
    have hlen : 1 ≤ (slebEncode (v / 128)).length := by
      rw [hrec]; simp
    simp only [fits7, List.length_cons] at ih ⊢
    have he : 7 * ((slebEncode (v / 128)).length + 1) - 1 =
        (7 * (slebEncode (v / 128)).length - 1) + 7 := by omega
    rw [he, pow_add]
    norm_num
    obtain ⟨ih1, ih2⟩ := ih
    constructor
    · nlinarith [Int.emod_nonneg v (by norm_num : (128:ℤ) ≠ 0),
        Int.ediv_add_emod v 128]
    · nlinarith [Int.emod_lt_of_pos v (by norm_num : (0:ℤ) < 128),
        Int.ediv_add_emod v 128]
termination_by v.natAbs
decreasing_by
  omega

/-- The int64_t cast recovers w from any X congruent to w mod 2^64 when w is
in int64_t range. -/
lemma toSigned64_eq {X : Nat} {w t : Int} (hX : X < 2 ^ 64)
    (hw1 : -(2 ^ 63) ≤ w) (hw2 : w < 2 ^ 63) (ht : (X : Int) = w + 2 ^ 64 * t) :
    toSigned64 X = w := by
  have hX' : (X : Int) < 2 ^ 64 := by exact_mod_cast hX
  unfold toSigned64
  split
  · rename_i hc
    have hc' : (X : Int) < 2 ^ 63 := by exact_mod_cast hc
    have hX0 : (0 : Int) ≤ (X : Int) := Int.natCast_nonneg X
    norm_num at hc' hX0 hw1 hw2 ht ⊢
    omega
  · rename_i hc
    have hc' : (2 ^ 63 : Int) ≤ (X : Int) := by exact_mod_cast Nat.le_of_not_lt hc
    norm_num at hc' hX' hw1 hw2 ht ⊢
    omega

/-- The encoder's output length is minimal among group counts that fit. -/
lemma slebEncode_length_min (v : Int) :
    ∀ k, 1 ≤ k → fits7 k v → (slebEncode v).length ≤ k := by
  intro k hk hfit
  by_cases h : -64 ≤ v ∧ v < 64
  · rw [slebEncode_small h]
    simpa using hk
  · rw [slebEncode_step h]
    simp only [List.length_cons]
    have hk2 : 2 ≤ k := by
      by_contra hlt
      have hk1 : k = 1 := by omega
      rw [hk1] at hfit
      simp only [fits7] at hfit
      norm_num at hfit
      omega
    have hfit' : fits7 (k - 1) (v / 128) := by
      simp only [fits7] at hfit ⊢
      have he : 7 * k - 1 = (7 * (k - 1) - 1) + 7 := by omega
      rw [he, pow_add] at hfit
      norm_num at hfit
      omega
    have := slebEncode_length_min (v / 128) (k - 1) (by omega) hfit'
    omega
termination_by v.natAbs
decreasing_by
  omega

/-! ## Decode correctness for the SLEB128 round trip -/

set_option maxHeartbeats 1600000 in
/-- Running ReadInternal's loop (with accumulator r at shift s) over the
encoder's output for v, then applying its sign extension, recovers
r + 2^s * v, provided the remaining value still fits in the untouched high
bits of the 64-bit accumulator. -/
lemma sleb_loop_correct (v : Int) : ∀ (r s : Nat), s ≤ 63 → r < 2 ^ s →
    -(2 ^ 63) ≤ v * 2 ^ s → v * 2 ^ s ≤ 2 ^ 63 - 2 ^ s →
    slebFinish (slebDecodeLoop (slebEncode v) r s) = some ((r : Int) + 2 ^ s * v) := by
  intro r s hs hr hlo hhi
  have hpow_cast : ∀ n : Nat, ((2 ^ n : Nat) : Int) = 2 ^ n := fun n => by push_cast; ring
  by_cases h : -64 ≤ v ∧ v < 64
  · -- Final group: the loop consumes one byte and stops.
    rw [slebEncode_small h]
    set p := (v % 128).toNat with hp
    have hp128 : p < 128 := by omega
    have hand127 : p &&& 127 = p := by rw [and_127_eq]; omega
    simp only [slebDecodeLoop, if_pos (and_128_eq_zero hp128), hand127,
      Nat.shiftLeft_eq]
    by_cases hv0 : 0 ≤ v
    · -- Non-negative final value: sign bit clear, no extension.
      have hpv : (p : Int) = v := by omega
      have hp64 : p < 64 := by omega
      have htrunc : p * 2 ^ s < 2 ^ 64 := by
        have h1 : (p : Int) * 2 ^ s ≤ 2 ^ 63 - 2 ^ s := by rw [hpv]; exact hhi
        have h2 : ((p * 2 ^ s : Nat) : Int) < 2 ^ 64 := by
          push_cast
          have : (0 : Int) < 2 ^ s := by positivity
          nlinarith
        exact_mod_cast h2
      rw [Nat.mod_eq_of_lt htrunc, lor_disjoint p s hr]
      simp only [slebFinish]
      rw [if_neg (by simp [and_64_eq_zero hp64])]
      rw [Nat.or_zero]
      congr 1
      refine toSigned64_eq (t := 0) ?_ ?_ ?_ ?_
      · have : (0 : Int) < 2 ^ s := by positivity
        have h2 : ((r + p * 2 ^ s : Nat) : Int) < 2 ^ 64 := by
          push_cast
          have hr' : (r : Int) < 2 ^ s := by exact_mod_cast hr
          nlinarith
        exact_mod_cast h2
      · have h1 : (0 : Int) ≤ 2 ^ s * v := mul_nonneg (by positivity) hv0
        have h2 : (0 : Int) ≤ (r : Int) := Int.natCast_nonneg r
        have h3 : (0 : Int) < 2 ^ 63 := by positivity
        linarith
      · have hr' : (r : Int) < 2 ^ s := by exact_mod_cast hr
        nlinarith
      · push_cast
        rw [hpv]
        ring
    · -- Negative final value: sign bit set.
      have hvneg : v < 0 := by omega
      have hpv : (p : Int) = v + 128 := by omega
      have hp64 : 64 ≤ p := by omega
      have hw1 : -(2 ^ 63) ≤ (r : Int) + 2 ^ s * v := by
        have hr0 : (0 : Int) ≤ r := Int.natCast_nonneg r
        nlinarith
      have hw2 : (r : Int) + 2 ^ s * v < 2 ^ 63 := by
        have hr' : (r : Int) < 2 ^ s := by exact_mod_cast hr
        have h1 : 2 ^ s * v ≤ -(2 ^ s) := by nlinarith
        have h63 : (0 : Int) < 2 ^ 63 := by positivity
        linarith
      by_cases hsA : s ≤ 56
      · -- The sign-extension branch runs: s + 7 < 64.
        have htrunc : p * 2 ^ s < 2 ^ 64 := by
          calc p * 2 ^ s < 2 ^ 7 * 2 ^ s :=
            (Nat.mul_lt_mul_right (Nat.two_pow_pos s)).mpr hp128
            _ = 2 ^ (s + 7) := by rw [← pow_add]; ring_nf
            _ ≤ 2 ^ 64 := Nat.pow_le_pow_right (by norm_num) (by omega)
        have hR : r + p * 2 ^ s < 2 ^ (s + 7) := by
          have h1 : p * 2 ^ s ≤ 127 * 2 ^ s := Nat.mul_le_mul_right _ (by omega)
          have h2 : 2 ^ (s + 7) = 128 * 2 ^ s := by rw [pow_add]; ring
          omega
        rw [Nat.mod_eq_of_lt htrunc, lor_disjoint p s hr]
        simp only [slebFinish]
        rw [if_pos ⟨and_64_ne_zero hp64 hp128, by omega⟩]
        have hone : (1 : Nat) <<< (s + 7) = 2 ^ (s + 7) := by
          rw [Nat.shiftLeft_eq, one_mul]
        have hcompl : complement64 ((1 <<< (s + 7)) - 1) = (2 ^ (57 - s) - 1) * 2 ^ (s + 7) := by
          unfold complement64
          rw [hone]
          have h1 : 2 ^ (s + 7) ≤ 2 ^ 64 := Nat.pow_le_pow_right (by norm_num) (by omega)
          have h2 : (2 ^ (57 - s) - 1) * 2 ^ (s + 7) = 2 ^ 64 - 2 ^ (s + 7) := by
            rw [Nat.sub_mul, one_mul, ← pow_add]
            congr 2
            omega
          omega
        rw [hcompl, lor_disjoint _ _ hR]
        congr 1
        refine toSigned64_eq (t := 1) ?_ hw1 hw2 ?_
        · have h1 : (2 ^ (57 - s) - 1) * 2 ^ (s + 7) = 2 ^ 64 - 2 ^ (s + 7) := by
            rw [Nat.sub_mul, one_mul, ← pow_add]
            congr 2
            omega
          have h2 : 2 ^ (s + 7) ≤ 2 ^ 64 := Nat.pow_le_pow_right (by norm_num) (by omega)
          omega
        · have h1 : (2 ^ (57 - s) - 1) * 2 ^ (s + 7) = 2 ^ 64 - 2 ^ (s + 7) := by
            rw [Nat.sub_mul, one_mul, ← pow_add]
            congr 2
            omega
          have h2 : 2 ^ (s + 7) ≤ 2 ^ 64 := Nat.pow_le_pow_right (by norm_num) (by omega)
          have hps : ((2 : Int) ^ (s + 7)) = 2 ^ s * 128 := by rw [pow_add]; ring
          have hX : ((r + p * 2 ^ s + (2 ^ (57 - s) - 1) * 2 ^ (s + 7) : Nat) : Int)
              = (r : Int) + (p : Int) * 2 ^ s + ((2 ^ 64 : Int) - 2 ^ (s + 7)) := by
            rw [h1, Nat.cast_add, Nat.cast_add, Nat.cast_sub h2]
            push_cast
            ring
          rw [hX, hpv, hps]
          ring
      · -- s ∈ [57, 63]: the shifted final group truncates mod 2^64 and the
        -- sign-extension branch is skipped (s + 7 ≥ 64).
        have hsB : 57 ≤ s := by omega
        have hsplit : 2 ^ 64 = 2 ^ (64 - s) * 2 ^ s := by
          rw [← pow_add]
          congr 1
          omega
        have hmod : p * 2 ^ s % 2 ^ 64 = (p % 2 ^ (64 - s)) * 2 ^ s := by
          rw [hsplit, Nat.mul_mod_mul_right]
        rw [hmod, lor_disjoint _ _ hr]
        simp only [slebFinish]
        rw [if_neg (by omega)]
        rw [Nat.or_zero]
        congr 1
        set m := p % 2 ^ (64 - s) with hm
        set q := p / 2 ^ (64 - s) with hq
        have hpqm : p = 2 ^ (64 - s) * q + m := (Nat.div_add_mod p (2 ^ (64 - s))).symm
        have hmlt : m < 2 ^ (64 - s) := Nat.mod_lt _ (by positivity)
        refine toSigned64_eq (t := 2 ^ (s - 57) - (q : Int)) ?_ hw1 hw2 ?_
        · have h1 : m * 2 ^ s ≤ (2 ^ (64 - s) - 1) * 2 ^ s := Nat.mul_le_mul_right _ (by omega)
          have h2 : (2 ^ (64 - s) - 1) * 2 ^ s = 2 ^ 64 - 2 ^ s := by
            rw [Nat.sub_mul, one_mul, ← pow_add]
            congr 2
            omega
          have h3 : 2 ^ s ≤ 2 ^ 64 := Nat.pow_le_pow_right (by norm_num) (by omega)
          omega
        · have hA : ((2 : Int) ^ (64 - s)) * 2 ^ s = 2 ^ 64 := by
            rw [← pow_add]
            congr 1
            omega
          have hB : ((2 : Int) ^ 64) * 2 ^ (s - 57) = 2 ^ s * 128 := by
            rw [← pow_add]
            have h128 : (128 : Int) = 2 ^ 7 := by norm_num
            rw [h128, ← pow_add]
            congr 1
            omega
          have hp' : (p : Int) = 2 ^ (64 - s) * q + m := by exact_mod_cast hpqm
          have hv : v = (p : Int) - 128 := by omega
          push_cast
          rw [hv, hp']
          nlinarith [hA, hB]
  · -- Continuation group: the loop consumes one byte and recurses.
    rw [slebEncode_step h]
    set p := (v % 128).toNat with hp
    have hp128 : p < 128 := by omega
    have hand127 : (p + 128) &&& 127 = p := by rw [and_127_eq]; omega
    simp only [slebDecodeLoop,
      if_neg (and_128_ne_zero (by omega) (by omega : p + 128 < 256)), hand127,
      Nat.shiftLeft_eq]
    -- The invariant bounds force s ≤ 56 here.
    have hs56 : s ≤ 56 := by
      by_contra hgt
      have hs57 : 57 ≤ s := by omega
      have hp2 : ((2 : Int) ^ 57) ≤ 2 ^ s :=
        pow_le_pow_right₀ (by norm_num) hs57
      have hs0 : (0 : Int) < 2 ^ s := by positivity
      have h65 : 65 * (2 : Int) ^ s ≤ 2 ^ 63 := by
        rcases (by omega : v ≤ -65 ∨ 64 ≤ v) with hc | hc
        · nlinarith
        · nlinarith
      nlinarith
    have htrunc : p * 2 ^ s < 2 ^ 64 := by
      calc p * 2 ^ s < 2 ^ 7 * 2 ^ s :=
            (Nat.mul_lt_mul_right (Nat.two_pow_pos s)).mpr hp128
        _ = 2 ^ (s + 7) := by rw [← pow_add]; ring_nf
        _ ≤ 2 ^ 64 := Nat.pow_le_pow_right (by norm_num) (by omega)
    have hR : r + p * 2 ^ s < 2 ^ (s + 7) := by
      have h1 : p * 2 ^ s ≤ 127 * 2 ^ s := Nat.mul_le_mul_right _ (by omega)
      have h2 : 2 ^ (s + 7) = 128 * 2 ^ s := by rw [pow_add]; ring
      omega
    rw [Nat.mod_eq_of_lt htrunc, lor_disjoint p s hr]
    -- Establish the invariant for the recursive value v / 128 at shift s + 7.
    have hs0 : (0 : Int) < 2 ^ s := by positivity
    have hM : ((2 : Int) ^ (56 - s)) * 2 ^ (s + 7) = 2 ^ 63 := by
      rw [← pow_add]
      congr 1
      omega
    have h128pow : ((2 : Int) ^ (s + 7)) = 2 ^ s * 128 := by rw [pow_add]; ring
    have hvlo : -(2 ^ (56 - s) * 128) ≤ v := by
      have h1 : -(2 ^ (56 - s) * 128) * 2 ^ s ≤ v * 2 ^ s := by
        calc -(2 ^ (56 - s) * 128) * 2 ^ s = -(2 ^ 63) := by
              rw [← hM, h128pow]; ring
          _ ≤ v * 2 ^ s := hlo
      exact le_of_mul_le_mul_right h1 hs0
    have hvhi : v ≤ 2 ^ (56 - s) * 128 - 1 := by
      have h1 : v * 2 ^ s ≤ (2 ^ (56 - s) * 128 - 1) * 2 ^ s := by
        calc v * 2 ^ s ≤ 2 ^ 63 - 2 ^ s := hhi
          _ = (2 ^ (56 - s) * 128 - 1) * 2 ^ s := by rw [← hM, h128pow]; ring
      exact le_of_mul_le_mul_right h1 hs0
    have hdivlo : -(2 ^ (56 - s)) ≤ v / 128 := by omega
    have hdivhi : v / 128 ≤ 2 ^ (56 - s) - 1 := by omega
    have hlo' : -(2 ^ 63) ≤ (v / 128) * 2 ^ (s + 7) := by
      have := mul_le_mul_of_nonneg_right hdivlo (le_of_lt (by positivity : (0:Int) < 2 ^ (s + 7)))
      calc -(2 ^ 63 : Int) = -(2 ^ (56 - s)) * 2 ^ (s + 7) := by rw [← hM]; ring
        _ ≤ (v / 128) * 2 ^ (s + 7) := this
    have hhi' : (v / 128) * 2 ^ (s + 7) ≤ 2 ^ 63 - 2 ^ (s + 7) := by
      have := mul_le_mul_of_nonneg_right hdivhi (le_of_lt (by positivity : (0:Int) < 2 ^ (s + 7)))
      calc (v / 128) * 2 ^ (s + 7) ≤ (2 ^ (56 - s) - 1) * 2 ^ (s + 7) := this
        _ = 2 ^ 63 - 2 ^ (s + 7) := by rw [← hM]; ring
    have ih := sleb_loop_correct (v / 128) (r + p * 2 ^ s) (s + 7)
      (by omega) hR hlo' hhi'
    rw [ih]
    congr 1
    have hpv : (p : Int) = v % 128 := by omega
    push_cast
    rw [hpv, h128pow]
    have hvdm : 128 * (v / 128) + v % 128 = v := Int.ediv_add_emod v 128
    nlinarith [hvdm]
termination_by v.natAbs
decreasing_by
  omega



/-- C5: for every 64-bit signed integer v, decoding the SLEB128 bytes
written by WriteStream's signed Write yields v again; the encoding uses the
minimum number of 7-bit groups that sign-extend back to v; and the final
data byte's bit 6 is set exactly when v is negative. -/
theorem c5_sleb128_roundtrip_holds (v : Int)
    (h1 : -(2 ^ 63) ≤ v) (h2 : v < 2 ^ 63) :
    slebDecode64 (slebEncode v) = some v
    ∧ fits7 (slebEncode v).length v
    ∧ (∀ k, 1 ≤ k → fits7 k v → (slebEncode v).length ≤ k)
    ∧ ∃ gs last, slebEncode v = gs ++ [last] ∧ (last &&& 64 ≠ 0 ↔ v < 0) := by
  refine ⟨?_, slebEncode_length_fits v, slebEncode_length_min v, ?_⟩
  · have hrt := sleb_loop_correct v 0 0 (by norm_num) (by norm_num)
      (by simpa using h1) (by simp only [pow_zero, mul_one]; omega)
    unfold slebDecode64
    simpa using hrt
  · obtain ⟨gs, last, hsh, hlt, hsign, -⟩ := slebEncode_shape v
    refine ⟨gs, last, hsh, ?_⟩
    rw [← hsign]
    constructor
    · intro hne
      by_contra hcon
      exact hne (and_64_eq_zero (by omega))
    · intro hge
      exact and_64_ne_zero hge hlt

/-- Witness for C5 at v = -123456. -/
theorem c5_sleb128_roundtrip_witness :
    -(2 ^ 63) ≤ (-123456 : Int) ∧ (-123456 : Int) < 2 ^ 63 ∧
      (slebDecode64 (slebEncode (-123456)) = some (-123456)
       ∧ fits7 (slebEncode (-123456)).length (-123456)
       ∧ (∀ k, 1 ≤ k → fits7 k (-123456) → (slebEncode (-123456)).length ≤ k)
       ∧ ∃ gs last, slebEncode (-123456) = gs ++ [last] ∧
          (last &&& 64 ≠ 0 ↔ (-123456 : Int) < 0)) :=
  ⟨by norm_num, by norm_num,
    c5_sleb128_roundtrip_holds (-123456) (by norm_num) (by norm_num)⟩

/-! ## The s-expression model (dart::SExpression) -/

/-- S-expression trees: symbols, integers and lists, as produced by the
Serialize methods via SExpSymbol / SExpInteger / SExpList. -/
inductive SExp
  | sym (s : String)
  | int (n : Int)
  | list (xs : List SExp)

/-! ## The type model (assembler_wasm.cc) -/

/-- NumType::Kind. -/
inductive NumTypeKind
  | i32
  | i64
  | f32
  | f64
  | v128
deriving DecidableEq

/-- HeapType: the abstract kinds plus kTypeidx.  The C++ kTypeidx variant
holds a DefType pointer; serialisation only ever reads def_type_->index(),
so the back reference is modelled by that index. -/
inductive HeapType
  | func
  | extrn
  | any
  | eq
  | i31
  | typeidx (index : Nat)
deriving DecidableEq

/-- RefType: (nullable, heap type). -/
structure RefType where
  nullable : Bool
  heap : HeapType
deriving DecidableEq

/-- Rtt: (depth, heap type). -/
structure Rtt where
  depth : Nat
  heap : HeapType
deriving DecidableEq

/-- ValueType: NumType, RefType or Rtt. -/
inductive ValueType
  | num (k : NumTypeKind)
  | ref (r : RefType)
  | rtt (t : Rtt)
deriving DecidableEq

/-- FieldType storage: a full ValueType (PackedType::kNoType, which is when
the C++ value_type_ member is used) or a packed kI8 / kI16 tag. -/
inductive FieldStorage
  | value (vt : ValueType)
  | i8
  | i16
deriving DecidableEq

/-- FieldType: storage plus mutability flag. -/
structure FieldType where
  storage : FieldStorage
  mut_ : Bool
deriving DecidableEq

/-- Field: a field of a struct type, with its index within the struct. -/
structure Field where
  fieldType : FieldType
  index : Nat
deriving DecidableEq

/-- The composite (definition) types FuncType / StructType / ArrayType,
each carrying the module-wide type index of its DefType base. -/
inductive DefType
  | funcType (index : Nat) (params : List ValueType) (result : ValueType)
  | structType (index : Nat) (fields : List Field)
  | arrayType (index : Nat) (fieldType : FieldType)
deriving DecidableEq

/-- DefType::index(). -/
def DefType.index : DefType → Nat
  | .funcType i _ _ => i
  | .structType i _ => i
  | .arrayType i _ => i

/-! ## Text serialisation of types -/

/-- NumType::Serialize (lines 101-116). -/
def NumTypeKind.serializeText : NumTypeKind → SExp
  | .i32 => .sym "i32"
  | .i64 => .sym "i64"
  | .f32 => .sym "f32"
  | .f64 => .sym "f64"
  | .v128 => .sym "v128"

/-- HeapType::Serialize (lines 200-217). -/
def HeapType.serializeText : HeapType → SExp
  | .func => .sym "func"
  | .extrn => .sym "extern"
  | .typeidx i => .int i
  | .any => .sym "any"
  | .eq => .sym "eq"
  | .i31 => .sym "i31"

/-- RefType::Serialize (lines 140-169): the shorthand forms are tried
first, then the general (ref [null] H) form. -/
def RefType.serializeText (r : RefType) : SExp :=
  if r.nullable = false ∧ r.heap = .i31 then .sym "i31ref"
  else if r.nullable = true ∧ r.heap = .func then .sym "funcref"
  else if r.nullable = true ∧ r.heap = .extrn then .sym "externref"
  else if r.nullable = true ∧ r.heap = .any then .sym "anyref"
  else if r.nullable = true ∧ r.heap = .eq then .sym "eqref"
  else .list ((SExp.sym "ref") ::
    ((if r.nullable then [SExp.sym "null"] else []) ++ [r.heap.serializeText]))

/-- Rtt::Serialize (lines 249-255). -/
def Rtt.serializeText (t : Rtt) : SExp :=
  .list [.sym "rtt", .int t.depth, t.heap.serializeText]

/-- ValueType dispatch for Serialize. -/
def ValueType.serializeText : ValueType → SExp
  | .num k => k.serializeText
  | .ref r => r.serializeText
  | .rtt t => t.serializeText

/-- FieldType::Serialize (lines 271-295). -/
def FieldType.serializeText (f : FieldType) : SExp :=
  let s := match f.storage with
    | .value vt => vt.serializeText
    | .i8 => SExp.sym "i8"
    | .i16 => SExp.sym "i16"
  if f.mut_ then .list [.sym "mut", s] else s

/-- FuncType::Serialize, StructType::Serialize, ArrayType::Serialize
(lines 322-338, 358-365, 375-380).  Field::Serialize delegates to its
FieldType (lines 263-265). -/
def DefType.serializeText : DefType → SExp
  | .funcType _ params result =>
    .list ((SExp.sym "func") ::
      (params.map (fun p => SExp.list [.sym "param", p.serializeText]) ++
        [SExp.list [.sym "result", result.serializeText]]))
  | .structType _ fields =>
    .list ((SExp.sym "struct") :: fields.map (fun f => f.fieldType.serializeText))
  | .arrayType _ ft => .list [.sym "array", ft.serializeText]

/-! ## Binary serialisation of types -/

/-- NumType::OutputBinary (lines 118-138). -/
def NumTypeKind.outputBinary : NumTypeKind → List Nat
  | .i32 => [0x7F]
  | .i64 => [0x7E]
  | .f32 => [0x7D]
  | .f64 => [0x7C]
  | .v128 => [0x7B]

/-- HeapType::OutputBinary (lines 219-247).  kAny hits
FATAL("any/anyref not implemented by V8") before writing anything. -/
def HeapType.outputBinary : HeapType → Option (List Nat)
  | .func => some (slebEncode (-0x10))
  | .extrn => some (slebEncode (-0x11))
  | .typeidx i => some (slebEncode i)
  | .any => none
  | .eq => some (slebEncode (-0x13))
  | .i31 => some (slebEncode (-0x16))

/-- RefType::OutputBinary (lines 171-198): shorthand cases first (i31ref's
own tag, or the bare heap tag for nullable abstract heaps), then the
general -0x14 / -0x15 tag followed by the heap type. -/
def RefType.outputBinary (r : RefType) : Option (List Nat) :=
  if r.nullable = false ∧ r.heap = .i31 then some (slebEncode (-0x16))
  else if r.nullable = true ∧
      (r.heap = .func ∨ r.heap = .extrn ∨ r.heap = .any ∨ r.heap = .eq) then
    r.heap.outputBinary
  else do
    let hb ← r.heap.outputBinary
    pure (slebEncode (if r.nullable then (-0x14 : Int) else -0x15) ++ hb)

/-- Rtt::OutputBinary (lines 257-261). -/
def Rtt.outputBinary (t : Rtt) : Option (List Nat) := do
  let hb ← t.heap.outputBinary
  pure (slebEncode (-0x17) ++ ulebEncode t.depth ++ hb)

/-- ValueType dispatch for OutputBinary. -/
def ValueType.outputBinary : ValueType → Option (List Nat)
  | .num k => some k.outputBinary
  | .ref r => r.outputBinary
  | .rtt t => t.outputBinary

/-- FieldType::OutputBinary (lines 297-317). -/
def FieldType.outputBinary (f : FieldType) : Option (List Nat) := do
  let s ← match f.storage with
    | .value vt => vt.outputBinary
    | .i8 => pure [0x7A]
    | .i16 => pure [0x79]
  pure (s ++ [if f.mut_ then 1 else 0])

/-- FuncType::OutputBinary, StructType::OutputBinary,
ArrayType::OutputBinary (lines 340-349, 367-373, 382-385).  A function
type writes 0x60, the ULEB param count, the params, the literal result
count 1, and the result. -/
def DefType.outputBinary : DefType → Option (List Nat)
  | .funcType _ params result => do
    let ps ← params.mapM ValueType.outputBinary
    let rb ← result.outputBinary
    pure ([0x60] ++ ulebEncode params.length ++ ps.flatten ++ [1] ++ rb)
  | .structType _ fields => do
    let fs ← fields.mapM (fun f => f.fieldType.outputBinary)
    pure ([0x5F] ++ ulebEncode fields.length ++ fs.flatten)
  | .arrayType _ ft => do
    let fb ← ft.outputBinary
    pure ([0x5E] ++ fb)


/-! ## Locals and instructions -/

/-- Local::Kind. -/
inductive LocalKind
  | kParam
  | kLocal
deriving DecidableEq

/-- Local: kind, value type, name (empty string = anonymous) and its index
within the owning function. -/
structure LocalVar where
  kind : LocalKind
  type : ValueType
  name : String
  index : Nat
deriving DecidableEq

/-- Local::Serialize (lines 466-483). -/
def LocalVar.serializeText (l : LocalVar) : SExp :=
  .list ((match l.kind with
      | .kLocal => [SExp.sym "local"]
      | .kParam => [SExp.sym "param"]) ++
    (if l.name ≠ "" then [SExp.sym ("$" ++ l.name)] else []) ++
    [l.type.serializeText])

/-- Instructions: the seed set.  If holds its two InstructionLists. -/
inductive Instr
  | localGet (l : LocalVar)
  | localSet (l : LocalVar)
  | i32Add
  | i32Const (value : Nat)
  | ifInstr (thenBranch otherwiseBranch : List Instr)

mutual

/-- Instruction Serialize methods (lines 399-459).  If::Serialize
(lines 442-459) is modelled exactly as written: the "else" symbol and the
otherwise branch are added to the sexp_then sub-list, and the separately
created sexp_otherwise list stays empty. -/
def Instr.serializeText : Instr → SExp
  | .localGet l => .sym ("local.get $" ++ l.name)
  | .localSet l => .sym ("local.set $" ++ l.name)
  | .i32Add => .sym "i32.add"
  | .i32Const v => .sym ("i32.const " ++ toString v)
  | .ifInstr t e =>
    .list [SExp.sym "if",
      SExp.list [SExp.sym "then", InstrList.serializeText t,
        SExp.sym "else", InstrList.serializeText e],
      SExp.list []]

/-- InstructionList::Serialize (lines 493-499): a flat list of the
instructions' serialisations. -/
def InstrList.serializeText (il : List Instr) : SExp :=
  .list (InstrList.serializeTextAux il)

def InstrList.serializeTextAux : List Instr → List SExp
  | [] => []
  | i :: rest => Instr.serializeText i :: InstrList.serializeTextAux rest

end

/-- Instruction OutputBinary methods (lines 404-464): local.get, local.set
and if are UNIMPLEMENTED (fatal, modelled as none); i32.add emits 0x6A;
i32.const emits 0x41 followed by the ULEB of its value. -/
def Instr.outputBinary : Instr → Option (List Nat)
  | .localGet _ => none
  | .localSet _ => none
  | .i32Add => some [0x6A]
  | .i32Const v => some (0x41 :: ulebEncode v)
  | .ifInstr _ _ => none

/-- InstructionList::OutputBinary (lines 501-505): concatenation. -/
def InstrList.outputBinary : List Instr → Option (List Nat)
  | [] => some []
  | i :: rest => do
    let b ← i.outputBinary
    let bs ← InstrList.outputBinary rest
    pure (b ++ bs)

/-! ## Function -/

/-- Function: name, module-wide function index, the index of its FuncType
(the C++ type_ pointer, which emission reads only via type_->index()),
its locals, and an optional body. -/
structure WasmFunction where
  name : String
  index : Nat
  typeIndex : Nat
  locals : List LocalVar
  body : Option (List Instr)

/-- Is the last local of the list a parameter? -/
def lastIsParam (ls : List LocalVar) : Bool :=
  match ls.getLast? with
  | some l => l.kind = .kParam
  | none => false

/-- Function::AddLocal (lines 584-591).  The ASSERT forbids adding a Param
once a non-Param local exists; an assertion trip is modelled as none. -/
def WasmFunction.addLocal (f : WasmFunction) (kind : LocalKind)
    (type : ValueType) (name : String) : Option WasmFunction :=
  if kind = .kLocal ∨ f.locals = [] ∨ lastIsParam f.locals then
    some { f with locals := f.locals ++ [⟨kind, type, name, f.locals.length⟩] }
  else none

/-- Function::MakeNewBody (lines 607-610). -/
def WasmFunction.makeNewBody (f : WasmFunction) : WasmFunction :=
  { f with body := some [] }

/-- Function::Serialize (lines 540-564): the func atom, the optional
$name, the (type idx) pair, each kLocal local (params are skipped), and
the body (or a <missing body> marker). -/
def WasmFunction.serializeText (f : WasmFunction) : SExp :=
  .list ((SExp.sym "func") ::
    ((if f.name ≠ "" then [SExp.sym ("$" ++ f.name)] else []) ++
      [SExp.list [.sym "type", .int f.typeIndex]] ++
      ((f.locals.filter (fun l => l.kind = .kLocal)).map LocalVar.serializeText) ++
      [match f.body with
        | some il => InstrList.serializeText il
        | none => SExp.sym "<missing body>"]))

/-- Function::OutputBinary (lines 566-582): the ULEB count of the locals_
list, then for every local (params included) the group ULEB 1 followed by
the local's value type; then the body's instructions (a missing body only
traces and writes nothing), then the end opcode 0x0B. -/
def WasmFunction.outputBinary (f : WasmFunction) : Option (List Nat) := do
  let groups ← f.locals.mapM (fun l => do
    let tb ← l.type.outputBinary
    pure (1 :: tb))
  let bodyBytes ← match f.body with
    | some il => InstrList.outputBinary il
    | none => pure []
  pure (ulebEncode f.locals.length ++ groups.flatten ++ bodyBytes ++ [0x0B])

/-! ## The module builder -/

/-- WasmModuleBuilder state: the owned composite types and functions, in
registration order (the C++ types_ and functions_ growable arrays). -/
structure WasmModuleBuilder where
  types : List DefType
  functions : List WasmFunction

/-- The builder right after the WasmModuleBuilder constructor
(lines 612-629): both index spaces empty. -/
def emptyBuilder : WasmModuleBuilder := ⟨[], []⟩

/-- WasmModuleBuilder::MakeFieldType(value_type, mut) (lines 701-703). -/
def WasmModuleBuilder.makeFieldType (b : WasmModuleBuilder) (vt : ValueType)
    (mut_ : Bool) : FieldType × WasmModuleBuilder :=
  (⟨.value vt, mut_⟩, b)

/-- WasmModuleBuilder::MakeFieldType(packed_type, mut) (lines 705-708),
for kI8 / kI16. -/
def WasmModuleBuilder.makeFieldTypePacked (b : WasmModuleBuilder)
    (storage : FieldStorage) (mut_ : Bool) : FieldType × WasmModuleBuilder :=
  (⟨storage, mut_⟩, b)

/-- WasmModuleBuilder::MakeHeapType (lines 725-727). -/
def WasmModuleBuilder.makeHeapType (b : WasmModuleBuilder) (d : DefType) :
    HeapType × WasmModuleBuilder :=
  (.typeidx d.index, b)

/-- WasmModuleBuilder::MakeRefType (lines 729-731). -/
def WasmModuleBuilder.makeRefType (b : WasmModuleBuilder) (nullable : Bool)
    (heap : HeapType) : RefType × WasmModuleBuilder :=
  (⟨nullable, heap⟩, b)

/-- WasmModuleBuilder::MakeFuncType (lines 733-738): a new FuncType with
the next free type index, appended to types_. -/
def WasmModuleBuilder.makeFuncType (b : WasmModuleBuilder)
    (resultType : ValueType) : DefType × WasmModuleBuilder :=
  let ft := DefType.funcType b.types.length [] resultType
  (ft, { b with types := b.types ++ [ft] })

/-- WasmModuleBuilder::MakeStructType (lines 740-744). -/
def WasmModuleBuilder.makeStructType (b : WasmModuleBuilder) :
    DefType × WasmModuleBuilder :=
  let st := DefType.structType b.types.length []
  (st, { b with types := b.types ++ [st] })

/-- WasmModuleBuilder::MakeArrayType(field_type) (lines 710-715). -/
def WasmModuleBuilder.makeArrayType (b : WasmModuleBuilder) (ft : FieldType) :
    DefType × WasmModuleBuilder :=
  let at_ := DefType.arrayType b.types.length ft
  (at_, { b with types := b.types ++ [at_] })

/-- WasmModuleBuilder::MakeArrayType(value_type, mut) (lines 717-719):
composition of MakeFieldType and MakeArrayType. -/
def WasmModuleBuilder.makeArrayTypeValue (b : WasmModuleBuilder)
    (vt : ValueType) (mut_ : Bool) : DefType × WasmModuleBuilder :=
  let (ft, b1) := b.makeFieldType vt mut_
  b1.makeArrayType ft

/-- WasmModuleBuilder::MakeArrayType(packed_type, mut) (lines 720-723). -/
def WasmModuleBuilder.makeArrayTypePacked (b : WasmModuleBuilder)
    (storage : FieldStorage) (mut_ : Bool) : DefType × WasmModuleBuilder :=
  let (ft, b1) := b.makeFieldTypePacked storage mut_
  b1.makeArrayType ft

/-- WasmModuleBuilder::AddFunction (lines 746-749): a new Function with
the next free function index, appended to functions_. -/
def WasmModuleBuilder.addFunction (b : WasmModuleBuilder) (name : String)
    (type : DefType) : WasmFunction × WasmModuleBuilder :=
  let f : WasmFunction := ⟨name, b.functions.length, type.index, [], none⟩
  (f, { b with functions := b.functions ++ [f] })

/-- FuncType::AddParam (lines 351-353), as an operation on the builder
state that owns the registered type: append a parameter to the func type
stored at position tidx.  (Other shapes at tidx cannot arise through the
C++ API, which exposes AddParam only on FuncType.) -/
def WasmModuleBuilder.addParam (b : WasmModuleBuilder) (tidx : Nat)
    (vt : ValueType) : WasmModuleBuilder :=
  match b.types.get? tidx with
  | some (.funcType i ps r) =>
    { b with types := b.types.set tidx (.funcType i (ps ++ [vt]) r) }
  | _ => b

/-- StructType::AddField(field_type) (lines 387-390), as an operation on
the builder state: append a Field with the next intra-struct index. -/
def WasmModuleBuilder.addField (b : WasmModuleBuilder) (tidx : Nat)
    (ft : FieldType) : WasmModuleBuilder :=
  match b.types.get? tidx with
  | some (.structType i fs) =>
    { b with types := b.types.set tidx (.structType i (fs ++ [⟨ft, fs.length⟩])) }
  | _ => b

/-- Function::AddLocal as an operation on the builder state owning the
function at position fidx; an assertion trip leaves no observable state. -/
def WasmModuleBuilder.addLocalOp (b : WasmModuleBuilder) (fidx : Nat)
    (kind : LocalKind) (type : ValueType) (name : String) : WasmModuleBuilder :=
  match b.functions.get? fidx with
  | some f =>
    { b with functions := b.functions.set fidx ((f.addLocal kind type name).getD f) }
  | none => b

/-- Function::MakeNewBody as an operation on the builder state. -/
def WasmModuleBuilder.makeNewBodyOp (b : WasmModuleBuilder) (fidx : Nat) :
    WasmModuleBuilder :=
  match b.functions.get? fidx with
  | some f => { b with functions := b.functions.set fidx f.makeNewBody }
  | none => b

/-! ## Module emission -/

/-- WasmModuleBuilder::Serialize (lines 631-648): a (module ...) list with
one (type ...) entry per composite followed by each function. -/
def WasmModuleBuilder.serializeText (b : WasmModuleBuilder) : SExp :=
  .list ((SExp.sym "module") ::
    (b.types.map (fun d => SExp.list [.sym "type", d.serializeText]) ++
      b.functions.map WasmFunction.serializeText))

/-- WasmModuleBuilder::OutputTypeSection (lines 650-658): the section id
byte 1, then the WRITE_BYTECOUNT scope around the ULEB type count and the
types' binary forms. -/
def WasmModuleBuilder.outputTypeSection (b : WasmModuleBuilder) :
    Option (List Nat) := do
  let tbs ← b.types.mapM DefType.outputBinary
  pure (pushBytecountFront [1] (ulebEncode b.types.length ++ tbs.flatten))

/-- WasmModuleBuilder::OutputFunctionSection (lines 660-668): the section
id byte 3, then the scope around the ULEB function count and each
function's type index as a ULEB. -/
def WasmModuleBuilder.outputFunctionSection (b : WasmModuleBuilder) : List Nat :=
  pushBytecountFront [3] (ulebEncode b.functions.length ++
    (b.functions.map (fun f => ulebEncode f.typeIndex)).flatten)

/-- WasmModuleBuilder::OutputCodeSection (lines 670-681): the section id
byte 10, then the scope around the ULEB function count and, per function,
a nested WRITE_BYTECOUNT scope around that function's code. -/
def WasmModuleBuilder.outputCodeSection (b : WasmModuleBuilder) :
    Option (List Nat) := do
  let entries ← b.functions.mapM (fun f => do
    let fb ← f.outputBinary
    pure (pushBytecountFront [] fb))
  pure (pushBytecountFront [10] (ulebEncode b.functions.length ++ entries.flatten))

/-- WasmModuleBuilder::OutputBinary (lines 683-699): magic, version, then
the type, function and code sections in ascending id order. -/
def WasmModuleBuilder.outputBinary (b : WasmModuleBuilder) :
    Option (List Nat) := do
  let ts ← b.outputTypeSection
  let cs ← b.outputCodeSection
  pure ([0x00, 0x61, 0x73, 0x6D] ++ [0x01, 0x00, 0x00, 0x00] ++
    ts ++ b.outputFunctionSection ++ cs)

-- Evaluation lemmas for small ULEB128 encodings.
lemma ulebEncode_eval_zero : ulebEncode 0 = [0] := by simp [ulebEncode]
lemma ulebEncode_eval_one : ulebEncode 1 = [1] := by simp [ulebEncode]


/-! ## C2: the empty module's exact bytes -/

/-- C2: serialising a builder with no registered composite types and no
functions produces exactly the 17 bytes: magic, version, then the type,
function and code sections (ids 1, 3, 10 in ascending order), each
length-prefixed with body a single ULEB 0 count. -/
theorem c2_empty_module_bytes :
    emptyBuilder.outputBinary =
      some [0x00, 0x61, 0x73, 0x6D, 0x01, 0x00, 0x00, 0x00,
        0x01, 0x01, 0x00, 0x03, 0x01, 0x00, 0x0A, 0x01, 0x00] := by
  simp [emptyBuilder, WasmModuleBuilder.outputBinary,
    WasmModuleBuilder.outputTypeSection, WasmModuleBuilder.outputFunctionSection,
    WasmModuleBuilder.outputCodeSection, pushBytecountFront,
    List.mapM.loop, ulebEncode_eval_zero, ulebEncode_eval_one]

/-! ## C4: reference-type shorthands -/

/-- A RefType matching a shorthand row of the encoding table:
non-nullable over I31, or nullable over Func / Extern / Any / Eq. -/
def isShorthand (r : RefType) : Prop :=
  (r.nullable = false ∧ r.heap = .i31) ∨
  (r.nullable = true ∧
    (r.heap = .func ∨ r.heap = .extrn ∨ r.heap = .any ∨ r.heap = .eq))

/-- The shorthand symbol of the encoding table for a shorthand RefType. -/
def shorthandName (r : RefType) : String :=
  match r.nullable, r.heap with
  | false, .i31 => "i31ref"
  | true, .func => "funcref"
  | true, .extrn => "externref"
  | true, .any => "anyref"
  | true, .eq => "eqref"
  | _, _ => ""

/-- C4: every shorthand-matching RefType serialises to the shorthand
symbol in text and, in binary, to the heap-tag-only shorthand form (for
i31ref, the tag -0x16 coincides with the I31 heap tag), never to the
general SLEB -0x14 / -0x15 tagged form; in particular
RefType(nullable=true, heap=Func) gives text funcref and the single byte
0x70. -/
theorem c4_shorthand_emission (r : RefType) (h : isShorthand r) :
    r.serializeText = .sym (shorthandName r)
    ∧ r.outputBinary = r.heap.outputBinary
    ∧ (∀ bs, r.outputBinary = some bs →
        bs.head? ≠ some 0x6C ∧ bs.head? ≠ some 0x6B)
    ∧ (r.nullable = true → r.heap = .func →
        r.serializeText = .sym "funcref" ∧ r.outputBinary = some [0x70]) := by
  obtain ⟨n, hp⟩ := r
  have h70 : slebEncode (-0x10) = [0x70] := by simp [slebEncode]
  have h6F : slebEncode (-0x11) = [0x6F] := by simp [slebEncode]
  have h6D : slebEncode (-0x13) = [0x6D] := by simp [slebEncode]
  have h6A : slebEncode (-0x16) = [0x6A] := by simp [slebEncode]
  rcases h with ⟨hn, hh⟩ | ⟨hn, hh⟩
  · simp only at hn hh
    subst hn hh
    refine ⟨rfl, ?_, ?_, by simp⟩
    · simp [RefType.outputBinary, HeapType.outputBinary]
    · intro bs hbs
      simp [RefType.outputBinary, HeapType.outputBinary, h6A] at hbs
      subst hbs
      simp
  · simp only at hn
    subst hn
    rcases hh with hh | hh | hh | hh <;> simp only at hh <;> subst hh
    · exact ⟨rfl, by simp [RefType.outputBinary], by
        intro bs hbs
        simp [RefType.outputBinary, HeapType.outputBinary, h70] at hbs
        subst hbs
        simp, by
        intro _ _
        refine ⟨rfl, ?_⟩
        simp [RefType.outputBinary, HeapType.outputBinary, h70]⟩
    · exact ⟨rfl, by simp [RefType.outputBinary], by
        intro bs hbs
        simp [RefType.outputBinary, HeapType.outputBinary, h6F] at hbs
        subst hbs
        simp, by intro _ hc; cases hc⟩
    · exact ⟨rfl, by simp [RefType.outputBinary], by
        intro bs hbs
        simp [RefType.outputBinary, HeapType.outputBinary] at hbs, by intro _ hc; cases hc⟩
    · exact ⟨rfl, by simp [RefType.outputBinary], by
        intro bs hbs
        simp [RefType.outputBinary, HeapType.outputBinary, h6D] at hbs
        subst hbs
        simp, by intro _ hc; cases hc⟩

/-- Witness for C4 at funcref. -/
theorem c4_shorthand_emission_witness :
    isShorthand ⟨true, .func⟩ ∧
      (RefType.serializeText ⟨true, .func⟩ = .sym (shorthandName ⟨true, .func⟩)
       ∧ RefType.outputBinary ⟨true, .func⟩ = HeapType.outputBinary .func
       ∧ (∀ bs, RefType.outputBinary ⟨true, .func⟩ = some bs →
           bs.head? ≠ some 0x6C ∧ bs.head? ≠ some 0x6B)
       ∧ ((true : Bool) = true → HeapType.func = .func →
           RefType.serializeText ⟨true, .func⟩ = .sym "funcref"
           ∧ RefType.outputBinary ⟨true, .func⟩ = some [0x70])) :=
  ⟨Or.inr ⟨rfl, Or.inl rfl⟩,
    c4_shorthand_emission ⟨true, .func⟩ (Or.inr ⟨rfl, Or.inl rfl⟩)⟩

/-! ## C8: HeapType::Any is fatal in binary, fine in text -/

/-- The SLEB128 tag that HeapType::OutputBinary writes for each kind; the
value for kAny is the dead WRITE_SIGNED(-0x12) after the FATAL and is
never reached. -/
def heapTag : HeapType → Int
  | .func => -0x10
  | .extrn => -0x11
  | .typeidx i => i
  | .any => -0x12
  | .eq => -0x13
  | .i31 => -0x16

/-- C8: binary emission of HeapType::Any is a fatal error that writes no
bytes, text serialisation of Any yields the symbol any, and every other
heap-type kind emits its SLEB128 tag without error. -/
theorem c8_heap_any_fatal :
    HeapType.outputBinary .any = none
    ∧ HeapType.serializeText .any = .sym "any"
    ∧ ∀ h : HeapType, h ≠ .any → h.outputBinary = some (slebEncode (heapTag h)) := by
  refine ⟨rfl, rfl, ?_⟩
  intro h hne
  cases h <;> first | rfl | exact absurd rfl hne

/-- Witness for C8 at HeapType::Func. -/
theorem c8_heap_any_fatal_witness :
    (HeapType.func ≠ .any) ∧
      HeapType.outputBinary .func = some (slebEncode (heapTag .func)) :=
  ⟨by simp, c8_heap_any_fatal.2.2 .func (by simp)⟩

/-! ## C7: the If text serialiser (latent bug in the source) -/

/-- C7 (divergence witness): If::Serialize at empty branches yields
(if (then () else ()) ()) - the else atom and the otherwise branch end up
inside the then sub-list and the third element is the empty
sexp_otherwise - not the prescribed (if (then ()) (else ())). -/
theorem c7_if_serialize_counterexample :
    Instr.serializeText (.ifInstr [] []) =
      SExp.list [SExp.sym "if",
        SExp.list [SExp.sym "then", SExp.list [], SExp.sym "else", SExp.list []],
        SExp.list []]
    ∧ Instr.serializeText (.ifInstr [] []) ≠
      SExp.list [SExp.sym "if",
        SExp.list [SExp.sym "then", SExp.list []],
        SExp.list [SExp.sym "else", SExp.list []]] := by
  constructor
  · simp [Instr.serializeText, InstrList.serializeText, InstrList.serializeTextAux]
  · simp [Instr.serializeText, InstrList.serializeText, InstrList.serializeTextAux]

/-! ## C1: the code-section locals encoding counts params (source slip) -/

/-- A function with one i32 parameter, no non-param locals, and an empty
body: the input on which the claimed locals encoding diverges from the
code. -/
def c1Function : WasmFunction :=
  { name := "f", index := 0, typeIndex := 0,
    locals := [⟨.kParam, .num .i32, "x", 0⟩], body := some [] }

/-- C1 (divergence witness): Function::OutputBinary writes the ULEB count
of all locals (params included) and one group per local, so the function
with one i32 param and zero non-param locals encodes as
[1, 1, 0x7F, 0x0B], not as the claimed [ULEB 0, 0x0B]. -/
theorem c1_locals_count_includes_params :
    (c1Function.locals.filter (fun l => l.kind = LocalKind.kLocal)).length = 0
    ∧ c1Function.outputBinary = some [1, 1, 0x7F, 0x0B]
    ∧ c1Function.outputBinary ≠ some (ulebEncode 0 ++ [0x0B]) := by
  refine ⟨rfl, ?_, ?_⟩
  · simp [c1Function, WasmFunction.outputBinary, List.mapM.loop,
      ValueType.outputBinary, NumTypeKind.outputBinary, InstrList.outputBinary,
      ulebEncode_eval_one]
  · simp [c1Function, WasmFunction.outputBinary, List.mapM.loop,
      ValueType.outputBinary, NumTypeKind.outputBinary, InstrList.outputBinary,
      ulebEncode_eval_one, ulebEncode_eval_zero]


/-! ## C9: params precede locals; AddLocal assertion -/

/-- All Param entries precede all Local entries: no Param appears after a
Local. -/
def paramsPrecede (ls : List LocalVar) : Prop :=
  ∀ i j (hi : i < ls.length) (hj : j < ls.length), i < j →
    (ls[i]).kind = .kLocal → (ls[j]).kind ≠ .kParam

/-- C9: once a function contains a Local-kind local, Function::AddLocal of
a Param trips the assertion (modelled as none); and every successful
AddLocal preserves the params-precede-locals order. -/
theorem c9_addlocal_assertion (f : WasmFunction) :
    (∀ ty nm, paramsPrecede f.locals →
      (∃ l ∈ f.locals, l.kind = LocalKind.kLocal) →
      f.addLocal .kParam ty nm = none)
    ∧ (∀ kind ty nm f', paramsPrecede f.locals →
        f.addLocal kind ty nm = some f' → paramsPrecede f'.locals) := by
  constructor
  · intro ty nm hord hloc
    obtain ⟨l, hl, hlk⟩ := hloc
    obtain ⟨i, hi, hget⟩ := List.mem_iff_getElem.mp hl
    have hne : f.locals ≠ [] := by
      intro hnil
      rw [hnil] at hi
      simp at hi
    have hlast : ¬ lastIsParam f.locals = true := by
      intro hlp
      unfold lastIsParam at hlp
      rcases hq : f.locals.getLast? with - | last
      · rw [hq] at hlp
        simp at hlp
      · rw [hq] at hlp
        simp only [decide_eq_true_eq] at hlp
        rw [List.getLast?_eq_getElem?] at hq
        have hlen1 : f.locals.length - 1 < f.locals.length := by
          have hnz : f.locals.length ≠ 0 := fun h0 => hne (List.length_eq_zero.mp h0)
          omega
        rw [List.getElem?_eq_getElem hlen1] at hq
        have hlastget : f.locals[f.locals.length - 1] = last := by
          exact Option.some.inj hq
        by_cases hij : i = f.locals.length - 1
        · subst hij
          rw [hget] at hlastget
          rw [← hlastget] at hlp
          rw [hlp] at hlk
          cases hlk
        · have hij' : i < f.locals.length - 1 := by omega
          have := hord i (f.locals.length - 1) hi hlen1 hij'
            (by rw [hget]; exact hlk)
          rw [hlastget] at this
          exact this hlp
    unfold WasmFunction.addLocal
    rw [if_neg]
    simp only [not_or]
    refine ⟨by simp, hne, by simpa using hlast⟩
  · intro kind ty nm f' hord hadd
    unfold WasmFunction.addLocal at hadd
    by_cases hc : kind = LocalKind.kLocal ∨ f.locals = [] ∨ lastIsParam f.locals
    · rw [if_pos hc] at hadd
      have hf' : f' = { f with locals := f.locals ++ [⟨kind, ty, nm, f.locals.length⟩] } :=
        (Option.some.inj hadd).symm
      subst hf'
      show paramsPrecede (f.locals ++ [(⟨kind, ty, nm, f.locals.length⟩ : LocalVar)])
      intro i j hi hj hij hik
      simp only [List.length_append, List.length_singleton] at hi hj
      by_cases hjlt : j < f.locals.length
      · have hilt : i < f.locals.length := by omega
        rw [List.getElem_append_left hilt] at hik
        rw [List.getElem_append_left hjlt]
        exact hord i j hilt hjlt hij hik
      · -- j is the new element
        have hje : j = f.locals.length := by omega
        have hjlen : j < (f.locals ++ [(⟨kind, ty, nm, f.locals.length⟩ : LocalVar)]).length := by
          simp only [List.length_append, List.length_singleton]
          omega
        have hnewget : (f.locals ++ [(⟨kind, ty, nm, f.locals.length⟩ : LocalVar)])[j] =
            ⟨kind, ty, nm, f.locals.length⟩ := by
          apply List.getElem_concat_length
          exact hje
        rw [hnewget]
        -- If the new element were a Param, the guard says the old list is
        -- empty or ends with a Param; with paramsPrecede there is then no
        -- Local in the old list, contradicting position i.
        intro hkp
        simp only at hkp
        subst hkp
        have hilt : i < f.locals.length := by omega
        rw [List.getElem_append_left hilt] at hik
        rcases hc with hc | hc | hc
        · cases hc
        · rw [hc] at hilt
          simp at hilt
        · unfold lastIsParam at hc
          rcases hq : f.locals.getLast? with - | last
          · rw [hq] at hc
            simp at hc
          · rw [hq] at hc
            simp only [decide_eq_true_eq] at hc
            rw [List.getLast?_eq_getElem?] at hq
            have hlen1 : f.locals.length - 1 < f.locals.length := by omega
            rw [List.getElem?_eq_getElem hlen1] at hq
            have hlastget : f.locals[f.locals.length - 1] = last :=
              Option.some.inj hq
            by_cases hie : i = f.locals.length - 1
            · subst hie
              rw [hlastget] at hik
              rw [hik] at hc
              cases hc
            · have hie' : i < f.locals.length - 1 := by omega
              have := hord i (f.locals.length - 1) hilt hlen1 hie' hik
              rw [hlastget] at this
              exact this hc
    · rw [if_neg hc] at hadd
      cases hadd

/-- Witness for C9 at a function whose single local is a Local. -/
theorem c9_addlocal_assertion_witness :
    (paramsPrecede [(⟨.kLocal, .num .i32, "t", 0⟩ : LocalVar)] ∧
      (∃ l ∈ [(⟨.kLocal, .num .i32, "t", 0⟩ : LocalVar)], l.kind = LocalKind.kLocal) ∧
      WasmFunction.addLocal ⟨"g", 0, 0, [⟨.kLocal, .num .i32, "t", 0⟩], none⟩
        .kParam (.num .i32) "p" = none) := by
  have hord : paramsPrecede [(⟨.kLocal, .num .i32, "t", 0⟩ : LocalVar)] := by
    intro i j hi hj hij
    simp only [List.length_singleton] at hi hj
    omega
  have hmem : ∃ l ∈ [(⟨.kLocal, .num .i32, "t", 0⟩ : LocalVar)],
      l.kind = LocalKind.kLocal := ⟨_, List.mem_singleton_self _, rfl⟩
  exact ⟨hord, hmem,
    (c9_addlocal_assertion ⟨"g", 0, 0, [⟨.kLocal, .num .i32, "t", 0⟩], none⟩).1
      (.num .i32) "p" hord hmem⟩


/-! ## C6 and C10: builder operations, index invariant, frame effects -/

/-- The operations exposed by WasmModuleBuilder (lines 701-749), plus the
mutators of builder-owned entities (FuncType::AddParam,
StructType::AddField, Function::AddLocal, Function::MakeNewBody). -/
inductive BuilderOp
  | mkFieldType (vt : ValueType) (mut_ : Bool)
  | mkFieldTypePacked (storage : FieldStorage) (mut_ : Bool)
  | mkHeapType (d : DefType)
  | mkRefType (nullable : Bool) (heap : HeapType)
  | mkFuncType (resultType : ValueType)
  | mkStructType
  | mkArrayType (ft : FieldType)
  | mkArrayTypeValue (vt : ValueType) (mut_ : Bool)
  | mkArrayTypePacked (storage : FieldStorage) (mut_ : Bool)
  | addFunction (name : String) (type : DefType)
  | addParam (tidx : Nat) (vt : ValueType)
  | addField (tidx : Nat) (ft : FieldType)
  | addLocal (fidx : Nat) (kind : LocalKind) (ty : ValueType) (name : String)
  | makeNewBody (fidx : Nat)

/-- The state transition of each builder operation. -/
def applyOp (b : WasmModuleBuilder) : BuilderOp → WasmModuleBuilder
  | .mkFieldType vt m => (b.makeFieldType vt m).2
  | .mkFieldTypePacked st m => (b.makeFieldTypePacked st m).2
  | .mkHeapType d => (b.makeHeapType d).2
  | .mkRefType n h => (b.makeRefType n h).2
  | .mkFuncType res => (b.makeFuncType res).2
  | .mkStructType => b.makeStructType.2
  | .mkArrayType ft => (b.makeArrayType ft).2
  | .mkArrayTypeValue vt m => (b.makeArrayTypeValue vt m).2
  | .mkArrayTypePacked st m => (b.makeArrayTypePacked st m).2
  | .addFunction nm ty => (b.addFunction nm ty).2
  | .addParam tidx vt => b.addParam tidx vt
  | .addField tidx ft => b.addField tidx ft
  | .addLocal fidx k ty nm => b.addLocalOp fidx k ty nm
  | .makeNewBody fidx => b.makeNewBodyOp fidx

/-- The index invariant: every registered composite sits in types_ at its
own type index, every registered function sits in functions_ at its own
function index (so indices are the contiguous 0..len-1 in registration
order). -/
def IndexInv (b : WasmModuleBuilder) : Prop :=
  (∀ i (hi : i < b.types.length), (b.types[i]).index = i) ∧
  (∀ i (hi : i < b.functions.length), (b.functions[i]).index = i)

/-- Appending an element carrying index = length preserves the index
invariant on a list. -/
lemma index_inv_append {α : Type} (idx : α → Nat) (l : List α) (a : α)
    (hl : ∀ i (hi : i < l.length), idx (l[i]) = i) (ha : idx a = l.length) :
    ∀ i (hi : i < (l ++ [a]).length), idx ((l ++ [a])[i]) = i := by
  intro i hi
  simp only [List.length_append, List.length_singleton] at hi
  by_cases hlt : i < l.length
  · rw [List.getElem_append_left hlt]
    exact hl i hlt
  · have hie : i = l.length := by omega
    rw [List.getElem_concat_length _ _ _ hie]
    omega

/-- Replacing the element at position n by one with the same index
preserves the index invariant on a list. -/
lemma index_inv_set {α : Type} (idx : α → Nat) (l : List α) (n : Nat) (a : α)
    (hl : ∀ i (hi : i < l.length), idx (l[i]) = i) (ha : idx a = n) :
    ∀ i (hi : i < (l.set n a).length), idx ((l.set n a)[i]) = i := by
  intro i hi
  simp only [List.length_set] at hi
  rw [List.getElem_set]
  split
  · omega
  · exact hl i hi

/-- C6: the index invariant holds for the fresh builder, is preserved by
every builder operation, and each registering operation places the handle
it returns at its own index. -/
theorem c6_index_invariant :
    IndexInv emptyBuilder
    ∧ (∀ (b : WasmModuleBuilder) (op : BuilderOp), IndexInv b → IndexInv (applyOp b op))
    ∧ (∀ (b : WasmModuleBuilder) (res : ValueType),
        ((b.makeFuncType res).2).types.get? ((b.makeFuncType res).1).index
          = some (b.makeFuncType res).1)
    ∧ (∀ b : WasmModuleBuilder,
        (b.makeStructType.2).types.get? b.makeStructType.1.index
          = some b.makeStructType.1)
    ∧ (∀ (b : WasmModuleBuilder) (ft : FieldType),
        ((b.makeArrayType ft).2).types.get? ((b.makeArrayType ft).1).index
          = some (b.makeArrayType ft).1)
    ∧ (∀ (b : WasmModuleBuilder) (nm : String) (ty : DefType),
        ((b.addFunction nm ty).2).functions.get? ((b.addFunction nm ty).1).index
          = some (b.addFunction nm ty).1) := by
  refine ⟨⟨by intro i hi; simp [emptyBuilder] at hi,
           by intro i hi; simp [emptyBuilder] at hi⟩, ?_, ?_, ?_, ?_, ?_⟩
  · intro b op hinv
    obtain ⟨ht, hf⟩ := hinv
    cases op with
    | mkFieldType vt m => exact ⟨ht, hf⟩
    | mkFieldTypePacked st m => exact ⟨ht, hf⟩
    | mkHeapType d => exact ⟨ht, hf⟩
    | mkRefType n h => exact ⟨ht, hf⟩
    | mkFuncType res =>
      exact ⟨index_inv_append DefType.index _ _ ht rfl, hf⟩
    | mkStructType =>
      exact ⟨index_inv_append DefType.index _ _ ht rfl, hf⟩
    | mkArrayType ft =>
      exact ⟨index_inv_append DefType.index _ _ ht rfl, hf⟩
    | mkArrayTypeValue vt m =>
      exact ⟨index_inv_append DefType.index _ _ ht rfl, hf⟩
    | mkArrayTypePacked st m =>
      exact ⟨index_inv_append DefType.index _ _ ht rfl, hf⟩
    | addFunction nm ty =>
      exact ⟨ht, index_inv_append WasmFunction.index _ _ hf rfl⟩
    | addParam tidx vt =>
      show IndexInv (b.addParam tidx vt)
      unfold WasmModuleBuilder.addParam
      cases hq : b.types.get? tidx with
      | none => exact ⟨ht, hf⟩
      | some d =>
        cases d with
        | funcType i ps r =>
          refine ⟨?_, hf⟩
          rw [List.get?_eq_getElem?] at hq
          obtain ⟨htl, h1⟩ := List.getElem?_eq_some_iff.mp hq
          have hidx : (DefType.funcType i ps r).index = tidx := by
            have := ht tidx htl
            rw [h1] at this
            exact this
          exact index_inv_set DefType.index _ _ _ ht hidx
        | structType i fs => exact ⟨ht, hf⟩
        | arrayType i ft => exact ⟨ht, hf⟩
    | addField tidx ft =>
      show IndexInv (b.addField tidx ft)
      unfold WasmModuleBuilder.addField
      cases hq : b.types.get? tidx with
      | none => exact ⟨ht, hf⟩
      | some d =>
        cases d with
        | funcType i ps r => exact ⟨ht, hf⟩
        | structType i fs =>
          refine ⟨?_, hf⟩
          rw [List.get?_eq_getElem?] at hq
          obtain ⟨htl, h1⟩ := List.getElem?_eq_some_iff.mp hq
          have hidx : (DefType.structType i (fs ++ [⟨ft, fs.length⟩])).index = tidx := by
            have := ht tidx htl
            rw [h1] at this
            exact this
          exact index_inv_set DefType.index _ _ _ ht hidx
        | arrayType i ftp => exact ⟨ht, hf⟩
    | addLocal fidx k ty nm =>
      show IndexInv (b.addLocalOp fidx k ty nm)
      unfold WasmModuleBuilder.addLocalOp
      cases hq : b.functions.get? fidx with
      | none => exact ⟨ht, hf⟩
      | some f =>
        refine ⟨ht, ?_⟩
        rw [List.get?_eq_getElem?] at hq
        obtain ⟨hfl, hfeq⟩ := List.getElem?_eq_some_iff.mp hq
        have hidx : ((f.addLocal k ty nm).getD f).index = fidx := by
          have hfi : f.index = fidx := by
            have := hf fidx hfl
            rw [hfeq] at this
            exact this
          unfold WasmFunction.addLocal
          split
          · simpa using hfi
          · simpa using hfi
        exact index_inv_set WasmFunction.index _ _ _ hf hidx
    | makeNewBody fidx =>
      show IndexInv (b.makeNewBodyOp fidx)
      unfold WasmModuleBuilder.makeNewBodyOp
      cases hq : b.functions.get? fidx with
      | none => exact ⟨ht, hf⟩
      | some f =>
        refine ⟨ht, ?_⟩
        rw [List.get?_eq_getElem?] at hq
        obtain ⟨hfl, hfeq⟩ := List.getElem?_eq_some_iff.mp hq
        have hidx : f.makeNewBody.index = fidx := by
          have := hf fidx hfl
          rw [hfeq] at this
          simpa [WasmFunction.makeNewBody] using this
        exact index_inv_set WasmFunction.index _ _ _ hf hidx
  · intro b res
    simp [WasmModuleBuilder.makeFuncType, DefType.index]
  · intro b
    simp [WasmModuleBuilder.makeStructType, DefType.index]
  · intro b ft
    simp [WasmModuleBuilder.makeArrayType, DefType.index]
  · intro b nm ty
    simp [WasmModuleBuilder.addFunction]

/-- Witness for C6: the invariant transports across a registering
operation from the empty builder. -/
theorem c6_index_invariant_witness :
    IndexInv emptyBuilder ∧
      IndexInv (applyOp emptyBuilder (.mkFuncType (.num .i32))) :=
  ⟨c6_index_invariant.1,
    c6_index_invariant.2.1 emptyBuilder (.mkFuncType (.num .i32))
      c6_index_invariant.1⟩

/-- Does the operation register a new composite type? -/
def registersType : BuilderOp → Bool
  | .mkFuncType _ => true
  | .mkStructType => true
  | .mkArrayType _ => true
  | .mkArrayTypeValue _ _ => true
  | .mkArrayTypePacked _ _ => true
  | _ => false

/-- Does the operation register a new function? -/
def registersFunction : BuilderOp → Bool
  | .addFunction _ _ => true
  | _ => false

/-- C10: MakeFieldType, MakeHeapType and MakeRefType leave the builder
state untouched, and across all operations the type index space grows only
under MakeFuncType / MakeStructType / MakeArrayType and the function index
space only under AddFunction. -/
theorem c10_factory_frame_effects :
    (∀ (b : WasmModuleBuilder) (vt : ValueType) (m : Bool),
      (b.makeFieldType vt m).2 = b)
    ∧ (∀ (b : WasmModuleBuilder) (st : FieldStorage) (m : Bool),
        (b.makeFieldTypePacked st m).2 = b)
    ∧ (∀ (b : WasmModuleBuilder) (d : DefType), (b.makeHeapType d).2 = b)
    ∧ (∀ (b : WasmModuleBuilder) (n : Bool) (h : HeapType),
        (b.makeRefType n h).2 = b)
    ∧ (∀ (b : WasmModuleBuilder) (op : BuilderOp),
        (applyOp b op).types.length
            = b.types.length + (if registersType op then 1 else 0)
        ∧ (applyOp b op).functions.length
            = b.functions.length + (if registersFunction op then 1 else 0)) := by
  refine ⟨fun b vt m => rfl, fun b st m => rfl, fun b d => rfl, fun b n h => rfl, ?_⟩
  intro b op
  cases op with
  | mkFieldType vt m => simp [applyOp, WasmModuleBuilder.makeFieldType, registersType, registersFunction]
  | mkFieldTypePacked st m => simp [applyOp, WasmModuleBuilder.makeFieldTypePacked, registersType, registersFunction]
  | mkHeapType d => simp [applyOp, WasmModuleBuilder.makeHeapType, registersType, registersFunction]
  | mkRefType n h => simp [applyOp, WasmModuleBuilder.makeRefType, registersType, registersFunction]
  | mkFuncType res => simp [applyOp, WasmModuleBuilder.makeFuncType, registersType, registersFunction]
  | mkStructType => simp [applyOp, WasmModuleBuilder.makeStructType, registersType, registersFunction]
  | mkArrayType ft => simp [applyOp, WasmModuleBuilder.makeArrayType, registersType, registersFunction]
  | mkArrayTypeValue vt m => simp [applyOp, WasmModuleBuilder.makeArrayTypeValue, WasmModuleBuilder.makeFieldType, WasmModuleBuilder.makeArrayType, registersType, registersFunction]
  | mkArrayTypePacked st m => simp [applyOp, WasmModuleBuilder.makeArrayTypePacked, WasmModuleBuilder.makeFieldTypePacked, WasmModuleBuilder.makeArrayType, registersType, registersFunction]
  | addFunction nm ty => simp [applyOp, WasmModuleBuilder.addFunction, registersType, registersFunction]
  | addParam tidx vt =>
    show (b.addParam tidx vt).types.length = _ ∧ (b.addParam tidx vt).functions.length = _
    unfold WasmModuleBuilder.addParam
    cases hq : b.types.get? tidx with
    | none => simp [registersType, registersFunction]
    | some d => cases d <;> simp [registersType, registersFunction]
  | addField tidx ft =>
    show (b.addField tidx ft).types.length = _ ∧ (b.addField tidx ft).functions.length = _
    unfold WasmModuleBuilder.addField
    cases hq : b.types.get? tidx with
    | none => simp [registersType, registersFunction]
    | some d => cases d <;> simp [registersType, registersFunction]
  | addLocal fidx k ty nm =>
    show (b.addLocalOp fidx k ty nm).types.length = _ ∧
      (b.addLocalOp fidx k ty nm).functions.length = _
    unfold WasmModuleBuilder.addLocalOp
    cases hq : b.functions.get? fidx with
    | none => simp [registersType, registersFunction]
    | some f => simp [registersType, registersFunction]
  | makeNewBody fidx =>
    show (b.makeNewBodyOp fidx).types.length = _ ∧
      (b.makeNewBodyOp fidx).functions.length = _
    unfold WasmModuleBuilder.makeNewBodyOp
    cases hq : b.functions.get? fidx with
    | none => simp [registersType, registersFunction]
    | some f => simp [registersType, registersFunction]

end Wasm
